import Mathlib

/-!
Shallow embedding of the structural-variant simulation manager of the RCK
repository (src/dassp/simulation/manager.py), together with theorems about
its breakpoint index resolver, mutation generators, mutation appliers,
mutation history driver, and adjacency copy-number comparators.

Python machine behaviour is embedded explicitly: dictionary/`list` indexing
that can raise is rendered with `Option` (or a dedicated result type whose
constructor names the raised error), Python `None` falling off the end of a
function is rendered as `Option.none`, and the in-place update of the shared
mutation-config dictionary is rendered by threading the updated config value
through calls.  Random draws are rendered by their outcome sets (for the
bounded draws of `np.random`) or by an injected oracle (for the history
driver's per-iteration mutation generation).
-/

set_option maxHeartbeats 1000000

/-- Modelled from the spec: a `Position` (class of `dassp.core.structures`,
outside the simulation sources) is a coordinate identified by a chromosome
id, an offset and an extremity side; the simulation code only uses positions
as hashable, comparable keys of sets and dictionaries. -/
structure Position where
  chrom : Nat
  offset : Nat
  side : Bool
deriving DecidableEq

/-- Modelled from the spec: a `Segment` (class of `dassp.core.structures`)
carries a start and an end `Position`, the chromosome-of-origin label that
`chromosomes_are_mates` reads as `s.chromosome`, and an orientation flag
`is_reversed`. -/
structure Segment where
  start_position : Position
  end_position : Position
  chromosome : Nat
  is_reversed : Bool
deriving DecidableEq

/-- A chromosome is an ordered sequence of segments. -/
abbrev Chromosome := List Segment

/-- A genome is an ordered sequence of chromosomes. -/
abbrev Genome := List Chromosome

/-- The four mutation types of `dassp.simulation.parts.MutationType`. -/
inductive MutationType where
  | REVERSAL
  | DUPLICATION
  | DELETION
  | TRANSLOCATION
deriving DecidableEq

/-- The per-type policy flags stored under the `mut_types_spec` key of the
mutation config: `arm_deletion` for DELETION, `arm_reversal` for REVERSAL,
and `chr1_empty_arm` / `chr2_empty_arm` / `homozygous` for TRANSLOCATION.
The source config keeps no entry for DUPLICATION. -/
structure MutTypesSpec where
  arm_deletion : Bool
  arm_reversal : Bool
  chr1_empty_arm : Bool
  chr2_empty_arm : Bool
  homozygous : Bool
deriving DecidableEq

/-- The mutation config dictionary of `manager.py`: the keys `mut_types`,
`mut_probs` and `mut_types_spec` of the module-level `MUTATION_CONFIG`,
plus the `mutated_extremities` key (`ME`) that `generate_mutated_genome`
inserts on demand; `none` models the key being absent. -/
structure MutationsConfig where
  mut_types : List MutationType
  mut_probs : List ℚ
  mut_types_spec : MutTypesSpec
  mutated_extremities : Option (List Position)
deriving DecidableEq

/-- The module-level default config `MUTATION_CONFIG` (manager.py lines
14-36): probabilities 0.1, 0.425, 0.425, 0.05 under the key `mut_probs`,
all policy flags `False`, and no `mutated_extremities` key. -/
def MUTATION_CONFIG : MutationsConfig :=
  { mut_types := [MutationType.REVERSAL, MutationType.DUPLICATION,
                  MutationType.DELETION, MutationType.TRANSLOCATION],
    mut_probs := [1/10, 17/40, 17/40, 1/20],
    mut_types_spec :=
      { arm_deletion := false,
        arm_reversal := false,
        chr1_empty_arm := false,
        chr2_empty_arm := false,
        homozygous := false },
    mutated_extremities := none }

/-- The set `config["mutated_extremities"]`, read as the empty set when the
key is absent (the driver inserts the key before any generator reads it). -/
def me_list (config : MutationsConfig) : List Position :=
  config.mutated_extremities.getD []

/-- `breakage_indexes(chromosome, config)` (manager.py lines 75-88): the
legal split indices of a chromosome.  The source builds `result` by three
appends: index 0 when the first segment's start position is not in
`config[ME]`; for each `i in range(len(chromosome) - 1)` the index `i + 1`
when neither `chromosome[i].end_position` nor `chromosome[i+1].start_position`
is in `config[ME]`; and index `len(chromosome)` when the last segment's end
position is not in `config[ME]`.  The `me` argument is the set
`config[ME]`. -/
def breakage_indexes (chromosome : Chromosome) (me : List Position) : List Nat :=
  if chromosome.isEmpty then []
  else
    (match chromosome.head? with
      | some s0 => if s0.start_position ∈ me then [] else [0]
      | none => [])
    ++ ((List.range (chromosome.length - 1)).filterMap fun i =>
          match chromosome[i]?, chromosome[i + 1]? with
          | some s1, some s2 =>
              if s1.end_position ∉ me ∧ s2.start_position ∉ me then some (i + 1)
              else none
          | _, _ => none)
    ++ (match chromosome.getLast? with
      | some sl => if sl.end_position ∈ me then [] else [chromosome.length]
      | none => [])

/-- The membership characterisation of `breakage_indexes`. -/
lemma mem_breakage_indexes (chromosome : Chromosome) (me : List Position) (i : Nat) :
    i ∈ breakage_indexes chromosome me ↔
      ((i = 0 ∧ ∃ s, chromosome.head? = some s ∧ s.start_position ∉ me)
       ∨ (0 < i ∧ i < chromosome.length ∧
           ∃ s1 s2, chromosome[i - 1]? = some s1 ∧ chromosome[i]? = some s2 ∧
             s1.end_position ∉ me ∧ s2.start_position ∉ me)
       ∨ (i = chromosome.length ∧
           ∃ s, chromosome.getLast? = some s ∧ s.end_position ∉ me)) := by
  match chromosome with
  | [] =>
      simp [breakage_indexes]
  | c0 :: rest =>
      have hne : (c0 :: rest) ≠ [] := by simp
      rw [breakage_indexes]
      simp only [List.isEmpty_cons, if_neg Bool.false_ne_true, List.head?_cons,
        List.mem_append, List.mem_filterMap, List.mem_range]
      constructor
      · rintro ((h | ⟨j, hj, hfj⟩) | h)
        · left
          by_cases hm : c0.start_position ∈ me
          · simp [hm] at h
          · simp [hm] at h
            exact ⟨h, c0, rfl, hm⟩
        · -- middle part
          right; left
          have hj1 : j < (c0 :: rest).length := by
            simp at hj ⊢; omega
          have hj2 : j + 1 < (c0 :: rest).length := by
            simp at hj ⊢; omega
          rcases List.getElem?_eq_some_iff.mpr ⟨hj1, rfl⟩ with h1
          rcases List.getElem?_eq_some_iff.mpr ⟨hj2, rfl⟩ with h2
          rw [h1, h2] at hfj
          by_cases hc : ((c0 :: rest)[j].end_position ∉ me ∧
              (c0 :: rest)[j + 1].start_position ∉ me)
          · simp only [if_pos hc] at hfj
            obtain rfl : j + 1 = i := by injection hfj
            refine ⟨by omega, by simpa using hj2, (c0 :: rest)[j], (c0 :: rest)[j + 1],
              ?_, ?_, hc.1, hc.2⟩
            · exact h1
            · exact h2
          · simp only [if_neg hc] at hfj
            exact absurd hfj (by simp)
        · right; right
          rcases h3 : (c0 :: rest).getLast? with _ | sl
          · rw [List.getLast?_eq_getLast _ hne] at h3
            simp at h3
          · rw [h3] at h
            by_cases hm : sl.end_position ∈ me
            · simp [hm] at h
            · simp [hm] at h
              exact ⟨h, sl, rfl, hm⟩
      · rintro (⟨rfl, s, hs, hm⟩ | ⟨hi0, hilen, s1, s2, h1, h2, hm1, hm2⟩ | ⟨rfl, s, hs, hm⟩)
        · left; left
          obtain rfl : s = c0 := by injection hs with h; exact h.symm
          simp [hm]
        · left; right
          simp only [List.length_cons] at hilen
          refine ⟨i - 1, by simp only [List.mem_range, List.length_cons]; omega, ?_⟩
          have e : i - 1 + 1 = i := by omega
          rw [e, h1, h2]
          simp [hm1, hm2]
        · right
          rw [hs]
          simp [hm]

/-- The boundary positions adjacent to split index `i` of a chromosome:
the end position of segment `i - 1` (when `i > 0`) and the start position of
segment `i` (when it exists).  These are exactly the positions whose absence
from the mutated-extremities set legalises index `i`. -/
def index_boundary_positions (chromosome : Chromosome) (i : Nat) : List Position :=
  (if i = 0 then [] else ((chromosome[i - 1]?).map Segment.end_position).toList)
  ++ ((chromosome[i]?).map Segment.start_position).toList

/-- A breakage index never sits next to a mutated extremity. -/
lemma breakage_indexes_avoid_me (chromosome : Chromosome) (me : List Position)
    (i : Nat) (h : i ∈ breakage_indexes chromosome me) :
    ∀ p ∈ index_boundary_positions chromosome i, p ∉ me := by
  rw [mem_breakage_indexes] at h
  intro p hp
  rcases h with ⟨rfl, s, hs, hm⟩ | ⟨hi0, hilen, s1, s2, h1, h2, hm1, hm2⟩ | ⟨rfl, s, hs, hm⟩
  · have h0 : chromosome[0]? = some s := by
      cases chromosome with
      | nil => simp at hs
      | cons a l => simpa using hs
    simp [index_boundary_positions, h0] at hp
    simpa [hp] using hm
  · simp [index_boundary_positions, h1, h2, Nat.pos_iff_ne_zero.mp hi0] at hp
    rcases hp with rfl | rfl
    · exact hm1
    · exact hm2
  · have hlastidx : chromosome.getLast? = chromosome[chromosome.length - 1]? :=
      List.getLast?_eq_getElem? chromosome
    have hlen0 : chromosome.length ≠ 0 := by
      intro h0
      rw [List.length_eq_zero.mp h0] at hs
      simp at hs
    have hnone : chromosome[chromosome.length]? = none :=
      List.getElem?_eq_none (le_refl _)
    simp [index_boundary_positions, hnone, hlen0, ← hlastidx, hs] at hp
    simpa [hp] using hm

/-- C4: `breakage_indexes` returns exactly the indices in `[0, len]` such
that: index 0 is returned iff the first segment's start position is not in
the mutated-extremities set; index `len` iff the last segment's end position
is not in the set; an internal index `i` (`0 < i < len`) iff neither the end
position of segment `i - 1` nor the start position of segment `i` is in the
set; and an empty chromosome yields the empty sequence. -/
theorem breakage_indexes_spec (chromosome : Chromosome) (me : List Position) :
    breakage_indexes [] me = []
    ∧ ∀ i : Nat, i ∈ breakage_indexes chromosome me ↔
        ((i = 0 ∧ ∃ s, chromosome.head? = some s ∧ s.start_position ∉ me)
         ∨ (0 < i ∧ i < chromosome.length ∧
             ∃ s1 s2, chromosome[i - 1]? = some s1 ∧ chromosome[i]? = some s2 ∧
               s1.end_position ∉ me ∧ s2.start_position ∉ me)
         ∨ (i = chromosome.length ∧
             ∃ s, chromosome.getLast? = some s ∧ s.end_position ∉ me)) :=
  ⟨rfl, fun i => mem_breakage_indexes chromosome me i⟩

/-- The segments and mutated-extremities set of the concrete
`breakage_indexes` example below. -/
def wSeg1 : Segment :=
  { start_position := ⟨1, 0, false⟩, end_position := ⟨1, 10, true⟩,
    chromosome := 1, is_reversed := false }

/-- Second segment of the concrete `breakage_indexes` example. -/
def wSeg2 : Segment :=
  { start_position := ⟨1, 10, false⟩, end_position := ⟨1, 20, true⟩,
    chromosome := 1, is_reversed := false }

/-- The mutated extremity of the concrete `breakage_indexes` example: the
start position of the second segment. -/
def wMe : List Position := [⟨1, 10, false⟩]

/-- A concrete instantiation of the `breakage_indexes` characterisation: in
a two-segment chromosome whose internal junction has a mutated start
position, index 0 is legal and the internal index 1 is not. -/
theorem breakage_indexes_spec_witness :
    0 ∈ breakage_indexes [wSeg1, wSeg2] wMe
    ∧ 1 ∉ breakage_indexes [wSeg1, wSeg2] wMe := by
  have h := breakage_indexes_spec [wSeg1, wSeg2] wMe
  constructor
  · exact (h.2 0).mpr (Or.inl ⟨rfl, wSeg1, rfl, by decide⟩)
  · intro hmem
    rcases (h.2 1).mp hmem with ⟨h0, _⟩ | ⟨_, _, s1, s2, h1, h2, _, hm2⟩ | ⟨hlen, _⟩
    · exact one_ne_zero h0
    · obtain rfl : s2 = wSeg2 := by
        have he : ([wSeg1, wSeg2][1]? : Option Segment) = some wSeg2 := rfl
        rw [he] at h2
        injection h2 with h2e
        exact h2e.symm
      exact hm2 (by decide)
    · exact absurd hlen (by decide)

/-- `np.random.choice(a=..., p=...)`: the probability that the draw returns
`a[i]`.  numpy documents that when `p` is `None` the choice is uniform over
`a`; otherwise entry `i` of `p` is the probability of `a[i]`. -/
def np_random_choice_pmf (a : List MutationType) (p : Option (List ℚ)) (i : Nat) : ℚ :=
  match p with
  | none => 1 / (a.length : ℚ)
  | some probs => probs.getD i 0

/-- `mutations_config.get("mut_prob")` (manager.py line 352).  No code path
of the repository ever stores a value under the key `"mut_prob"`: the
configured probabilities live under the key `"mut_probs"` (line 19), so for
every config built from the schema of `MUTATION_CONFIG` this `dict.get`
returns `None`. -/
def mutations_config_get_mut_prob (_config : MutationsConfig) : Option (List ℚ) :=
  none

/-- The categorical distribution over `config["mut_types"]` that one
iteration of `generate_mutated_genome` uses to sample the mutation type
(manager.py lines 350-352). -/
def mutation_type_pmf (config : MutationsConfig) (i : Nat) : ℚ :=
  np_random_choice_pmf config.mut_types (mutations_config_get_mut_prob config) i

/-- C1: under the default `MUTATION_CONFIG`, the driver's per-iteration
mutation-type draw is uniform (probability 1/4 for each of the four enabled
types) and disagrees with every configured per-type probability
(0.1/0.425/0.425/0.05): line 352 reads the key `"mut_prob"` while the
config stores the probabilities under `"mut_probs"`, so `np.random.choice`
receives `p=None`. -/
theorem mutation_type_sampling_is_uniform_not_configured :
    mutation_type_pmf MUTATION_CONFIG 0 = 1/4
    ∧ mutation_type_pmf MUTATION_CONFIG 1 = 1/4
    ∧ mutation_type_pmf MUTATION_CONFIG 2 = 1/4
    ∧ mutation_type_pmf MUTATION_CONFIG 3 = 1/4
    ∧ mutation_type_pmf MUTATION_CONFIG 0 ≠ MUTATION_CONFIG.mut_probs.getD 0 0
    ∧ mutation_type_pmf MUTATION_CONFIG 1 ≠ MUTATION_CONFIG.mut_probs.getD 1 0
    ∧ mutation_type_pmf MUTATION_CONFIG 2 ≠ MUTATION_CONFIG.mut_probs.getD 2 0
    ∧ mutation_type_pmf MUTATION_CONFIG 3 ≠ MUTATION_CONFIG.mut_probs.getD 3 0 := by
  refine ⟨?_, ?_, ?_, ?_, ?_, ?_, ?_, ?_⟩ <;>
    norm_num [mutation_type_pmf, np_random_choice_pmf,
      mutations_config_get_mut_prob, MUTATION_CONFIG,
      List.getD_cons_zero, List.getD_cons_succ]

/-- `np.random.randint(low, high)`: raises `ValueError` when
`high <= low` (modelled by `none`), otherwise draws uniformly from the
half-open integer range `[low, high)` (modelled by its list of possible
outcomes). -/
def np_random_randint (low high : ℤ) : Option (List ℤ) :=
  if high ≤ low then none
  else some ((List.range (high - low).toNat).map fun k => low + (k : ℤ))

/-- The split-point selection of `generate_translocation` for one side
(manager.py lines 232-233): `chr_index = np.random.randint(low=0,
high=len(chr_br_indexes) - 1)`.  The drawn value is then used directly as
that side's split index (lines 235-252 index the chromosome with it); the
source never maps it through `chr_br_indexes`. -/
def generate_translocation_split_outcomes (br_indexes : List Nat) : Option (List ℤ) :=
  np_random_randint 0 ((br_indexes.length : ℤ) - 1)

/-- C2 evaluation: with a single candidate index ([2]) the call
`np.random.randint(0, 0)` raises; with candidate list [1, 3] the only
possible split index is 0, which is not a member of the candidate list, and
the last candidate 3 can never be selected. -/
theorem generate_translocation_split_selection_bug :
    generate_translocation_split_outcomes [2] = none
    ∧ generate_translocation_split_outcomes [1, 3] = some [0]
    ∧ (0 : ℤ) ∉ ([1, 3].map fun n : Nat => (n : ℤ))
    ∧ (3 : ℤ) ∉ [(0 : ℤ)] := by
  refine ⟨rfl, ?_, by decide, by decide⟩
  decide

/-- The distinct elements of a list in order of first occurrence: the key
order of a Python `Counter` built from the list. -/
def firstOccurrencesAux : List Nat → List Nat → List Nat
  | [], _ => []
  | x :: xs, seen =>
      if x ∈ seen then firstOccurrencesAux xs seen
      else x :: firstOccurrencesAux xs (x :: seen)

/-- The keys of `Counter(l)` in insertion order. -/
def firstOccurrences (l : List Nat) : List Nat :=
  firstOccurrencesAux l []

/-- `Counter(l).most_common(n=1)[0]`: the `(element, count)` pair with the
largest count, ties resolved in favour of the earlier first occurrence;
`none` models the `IndexError` of `[0]` on an empty counter. -/
def counter_most_common_1 (l : List Nat) : Option (Nat × Nat) :=
  match (firstOccurrences l).map fun x => (x, l.count x) with
  | [] => none
  | c :: cs => some (cs.foldl (fun best p => if best.2 < p.2 then p else best) c)

/-- The result of calling a Python function that can raise: either an
exception was raised, or a value was returned (`Option Bool` with `none`
standing for Python `None`). -/
inductive PyReturn where
  | raised
  | value (v : Option Bool)
deriving DecidableEq

/-- `chromosomes_are_mates` (manager.py lines 197-205): compares the
`most_common(n=1)[0]` entries of the two chromosomes' chromosome-of-origin
labels.  The source returns `False` when the two `(label, count)` pairs
differ and otherwise falls off the end of the function, returning Python
`None`; on an empty chromosome, `most_common(n=1)[0]` raises `IndexError`. -/
def chromosomes_are_mates (chromosome1 chromosome2 : Chromosome) : PyReturn :=
  match counter_most_common_1 (chromosome1.map Segment.chromosome),
        counter_most_common_1 (chromosome2.map Segment.chromosome) with
  | some m1, some m2 =>
      if m1 ≠ m2 then PyReturn.value (some false) else PyReturn.value none
  | _, _ => PyReturn.raised

/-- Python truthiness of the values `chromosomes_are_mates` can return:
`None` and `False` are falsy. -/
def py_truthy : Option Bool → Bool
  | some b => b
  | none => false

/-- The mate-rejection guard of `generate_translocation` (manager.py lines
215-217): `if not config[...]["homozygous"] and chromosomes_are_mates(...):
continue`.  `some true` models taking the `continue` (pair rejected),
`some false` models accepting the pair for this check, and `none` models an
exception escaping the guard.  When the `homozygous` flag is true the
conjunction short-circuits and `chromosomes_are_mates` is never called. -/
def translocation_pair_rejected (config : MutationsConfig)
    (chromosome1 chromosome2 : Chromosome) : Option Bool :=
  if config.mut_types_spec.homozygous then some false
  else
    match chromosomes_are_mates chromosome1 chromosome2 with
    | PyReturn.raised => none
    | PyReturn.value v => some (py_truthy v)

/-- First chromosome of the concrete mate pair: a single segment with
chromosome-of-origin label 1. -/
def mateChrom1 : Chromosome :=
  [{ start_position := ⟨1, 0, false⟩, end_position := ⟨1, 10, true⟩,
     chromosome := 1, is_reversed := false }]

/-- Second chromosome of the concrete mate pair: its homolog, also with
chromosome-of-origin label 1. -/
def mateChrom2 : Chromosome :=
  [{ start_position := ⟨1, 0, true⟩, end_position := ⟨1, 10, false⟩,
     chromosome := 1, is_reversed := false }]

/-- C3 evaluation: `chromosomes_are_mates` never returns Python `True` (it
raises, returns `False`, or returns `None`), so with the `homozygous` flag
false the rejection guard of `generate_translocation` never fires: the
concrete mate pair (same most-common chromosome-of-origin entry `(1, 1)`)
is accepted rather than rejected and resampled. -/
theorem mate_pairs_are_never_rejected :
    (∀ chromosome1 chromosome2 : Chromosome,
        chromosomes_are_mates chromosome1 chromosome2 = PyReturn.raised
        ∨ chromosomes_are_mates chromosome1 chromosome2 = PyReturn.value (some false)
        ∨ chromosomes_are_mates chromosome1 chromosome2 = PyReturn.value none)
    ∧ counter_most_common_1 (mateChrom1.map Segment.chromosome)
        = counter_most_common_1 (mateChrom2.map Segment.chromosome)
    ∧ chromosomes_are_mates mateChrom1 mateChrom2 = PyReturn.value none
    ∧ MUTATION_CONFIG.mut_types_spec.homozygous = false
    ∧ translocation_pair_rejected MUTATION_CONFIG mateChrom1 mateChrom2 = some false := by
  refine ⟨?_, by decide, by decide, rfl, by decide⟩
  intro chromosome1 chromosome2
  unfold chromosomes_are_mates
  cases counter_most_common_1 (chromosome1.map Segment.chromosome) with
  | none => simp
  | some m1 =>
      cases counter_most_common_1 (chromosome2.map Segment.chromosome) with
      | none => simp
      | some m2 =>
          by_cases h : m1 ≠ m2 <;> simp [h]

/-- The outcome of one iteration of a generator's `while True` feasibility
loop: `indexError` when list indexing raises, `retry` when the loop
resamples a chromosome (`len(br_indexes) >= 2` fails), and `proceed br`
when the loop breaks with candidate list `br`. -/
inductive GenStep where
  | indexError
  | retry
  | proceed (br_indexes : List Nat)
deriving DecidableEq

/-- The arm-exclusion filter plus feasibility check that `generate_reversal`
(manager.py lines 96-101) and `generate_deletion` (lines 165-170) both
inline when their arm flag is false: evaluate `br_indexes[0] == 0` (an
`IndexError` on an empty list) and drop the head when it is 0, then
`br_indexes[-1] == len(chromosome)` (an `IndexError` on an empty list) and
drop the last element when it equals `n`; finally break out of the loop
when at least 2 indices remain and retry otherwise. -/
def arm_filter_step (br_indexes : List Nat) (n : Nat) : GenStep :=
  match br_indexes.head? with
  | none => GenStep.indexError
  | some h =>
      let br1 := if h = 0 then br_indexes.drop 1 else br_indexes
      match br1.getLast? with
      | none => GenStep.indexError
      | some l =>
          let br2 := if l = n then br1.dropLast else br1
          if 2 ≤ br2.length then GenStep.proceed br2 else GenStep.retry

/-- One feasibility iteration of `generate_reversal` (manager.py lines
92-102) for an already sampled chromosome: compute `breakage_indexes`, run
the arm filter when `arm_reversal` is false, and break (`proceed`) exactly
when at least 2 candidate indices remain. -/
def generate_reversal_step (chromosome : Chromosome) (config : MutationsConfig) : GenStep :=
  let br_indexes := breakage_indexes chromosome (me_list config)
  if config.mut_types_spec.arm_reversal then
    (if 2 ≤ br_indexes.length then GenStep.proceed br_indexes else GenStep.retry)
  else arm_filter_step br_indexes chromosome.length

/-- One feasibility iteration of `generate_deletion` (manager.py lines
161-171), identical to the reversal iteration but keyed on the
`arm_deletion` flag. -/
def generate_deletion_step (chromosome : Chromosome) (config : MutationsConfig) : GenStep :=
  let br_indexes := breakage_indexes chromosome (me_list config)
  if config.mut_types_spec.arm_deletion then
    (if 2 ≤ br_indexes.length then GenStep.proceed br_indexes else GenStep.retry)
  else arm_filter_step br_indexes chromosome.length

/-- One feasibility iteration of `generate_duplication` (manager.py lines
129-134): the source applies no arm filter for duplications (the config has
no DUPLICATION entry under `mut_types_spec`), so the loop breaks exactly
when the unfiltered breakage-index list has at least 2 entries. -/
def generate_duplication_step (chromosome : Chromosome) (config : MutationsConfig) : GenStep :=
  let br_indexes := breakage_indexes chromosome (me_list config)
  if 2 ≤ br_indexes.length then GenStep.proceed br_indexes else GenStep.retry

/-- A value produced by `getLast?` is a member of the list. -/
lemma mem_of_getLast?_eq {l : List Nat} {a : Nat} (h : l.getLast? = some a) : a ∈ l := by
  obtain ⟨hne, rfl⟩ := List.mem_getLast?_eq_getLast (Option.mem_def.mpr h)
  exact List.getLast_mem hne

/-- `arm_filter_step` on a nonempty list, with the lets unfolded. -/
lemma arm_filter_step_cons (x : Nat) (xs : List Nat) (n : Nat) :
    arm_filter_step (x :: xs) n =
      (match (if x = 0 then xs else x :: xs).getLast? with
       | none => GenStep.indexError
       | some l =>
           if 2 ≤ (if l = n then (if x = 0 then xs else x :: xs).dropLast
                   else (if x = 0 then xs else x :: xs)).length
           then GenStep.proceed (if l = n then (if x = 0 then xs else x :: xs).dropLast
                                 else (if x = 0 then xs else x :: xs))
           else GenStep.retry) := rfl

/-- Evaluation of `arm_filter_step` when the filtered head block is known
and the remaining list has a last element. -/
lemma arm_filter_step_eval (x : Nat) (xs : List Nat) (n : Nat) (br1 : List Nat)
    (l : Nat) (h1 : (if x = 0 then xs else x :: xs) = br1)
    (h2 : br1.getLast? = some l) :
    arm_filter_step (x :: xs) n =
      (if 2 ≤ (if l = n then br1.dropLast else br1).length
       then GenStep.proceed (if l = n then br1.dropLast else br1)
       else GenStep.retry) := by
  rw [arm_filter_step_cons, h1, h2]

/-- Evaluation of `arm_filter_step` when the second indexing raises. -/
lemma arm_filter_step_error (x : Nat) (xs : List Nat) (n : Nat)
    (h1 : (if x = 0 then xs else x :: xs).getLast? = none) :
    arm_filter_step (x :: xs) n = GenStep.indexError := by
  rw [arm_filter_step_cons, h1]

/-- Behaviour of the arm filter on a breakage-index list decomposed into its
head block (`[]` or `[0]`), its internal block `B` (indices strictly between
0 and `n`), and its tail block (`[]` or `[n]`): it raises exactly on `[]`
and `[0]`, and otherwise keeps exactly the internal block, breaking out of
the loop when at least 2 internal indices remain. -/
lemma arm_filter_step_eq (A B C : List Nat) (n : Nat) (hn : 1 ≤ n)
    (hA : A = [] ∨ A = [0])
    (hB : ∀ x ∈ B, 0 < x ∧ x < n)
    (hC : C = [] ∨ C = [n]) :
    arm_filter_step (A ++ B ++ C) n =
      (if A ++ B ++ C = [] ∨ A ++ B ++ C = [0] then GenStep.indexError
       else
         (if 2 ≤ ((A ++ B ++ C).filter fun i => decide (i ≠ 0) && decide (i ≠ n)).length
          then GenStep.proceed
                 ((A ++ B ++ C).filter fun i => decide (i ≠ 0) && decide (i ≠ n))
          else GenStep.retry)) := by
  have hn0 : ¬ n = 0 := by omega
  have hfB : B.filter (fun i => decide (i ≠ 0) && decide (i ≠ n)) = B := by
    rw [List.filter_eq_self]
    intro a ha
    have h := hB a ha
    simp only [Bool.and_eq_true, decide_eq_true_eq]
    omega
  rcases hA with rfl | rfl <;> rcases hC with rfl | rfl
  · -- A = [], C = []
    cases B with
    | nil => simp [arm_filter_step]
    | cons b B' =>
        have hb := hB b (by simp)
        have hb0 : ¬ b = 0 := by omega
        simp only [List.nil_append, List.append_nil] at hfB ⊢
        rcases e : (b :: B').getLast? with _ | l
        · rw [List.getLast?_eq_getLast _ (by simp)] at e
          simp at e
        · have hl := hB l (mem_of_getLast?_eq e)
          rw [arm_filter_step_eval b B' n (b :: B') l (if_neg hb0) e,
            if_neg (show ¬ l = n by omega),
            if_neg (show ¬(b :: B' = [] ∨ b :: B' = [0]) from by simp [hb0]),
            hfB]
  · -- A = [], C = [n]
    cases B with
    | nil =>
        simp only [List.nil_append]
        rw [arm_filter_step_eval n [] n [n] n (if_neg hn0) (by simp),
          if_pos (show n = n from rfl)]
        simp [hn0]
    | cons b B' =>
        have hb := hB b (by simp)
        have hb0 : ¬ b = 0 := by omega
        simp only [List.nil_append, List.cons_append] at hfB ⊢
        rw [arm_filter_step_eval b (B' ++ [n]) n (b :: (B' ++ [n])) n (if_neg hb0)
            (by rw [← List.cons_append]; exact List.getLast?_concat _),
          if_pos (show n = n from rfl),
          show (b :: (B' ++ [n])).dropLast = b :: B' from by
            rw [← List.cons_append, List.dropLast_concat],
          if_neg (show ¬(b :: (B' ++ [n]) = [] ∨ b :: (B' ++ [n]) = [0]) from by
            simp [hb0]),
          show List.filter (fun i => decide (i ≠ 0) && decide (i ≠ n))
              (b :: (B' ++ [n])) = b :: B' from by
            rw [← List.cons_append, List.filter_append, hfB]
            simp]
  · -- A = [0], C = []
    cases B with
    | nil =>
        simp only [List.append_nil]
        rw [arm_filter_step_error 0 [] n (by simp)]
        simp
    | cons b B' =>
        have hb := hB b (by simp)
        have hb0 : ¬ b = 0 := by omega
        simp only [List.append_nil, List.singleton_append] at hfB ⊢
        rcases e : (b :: B').getLast? with _ | l
        · rw [List.getLast?_eq_getLast _ (by simp)] at e
          simp at e
        · have hl := hB l (mem_of_getLast?_eq e)
          rw [arm_filter_step_eval 0 (b :: B') n (b :: B') l (if_pos rfl) e,
            if_neg (show ¬ l = n by omega),
            if_neg (show ¬((0 : Nat) :: b :: B' = [] ∨ (0 : Nat) :: b :: B' = [0])
              from by simp),
            show List.filter (fun i => decide (i ≠ 0) && decide (i ≠ n))
                (0 :: b :: B') = b :: B' from by
              rw [List.filter_cons, if_neg (by simp)]
              exact hfB]
  · -- A = [0], C = [n]
    cases B with
    | nil =>
        simp only [List.nil_append, List.singleton_append]
        rw [arm_filter_step_eval 0 [n] n [n] n (if_pos rfl) (by simp),
          if_pos (show n = n from rfl)]
        simp [hn0]
    | cons b B' =>
        have hb := hB b (by simp)
        have hb0 : ¬ b = 0 := by omega
        simp only [List.singleton_append, List.cons_append, List.nil_append] at hfB ⊢
        rw [arm_filter_step_eval 0 (b :: (B' ++ [n])) n (b :: (B' ++ [n])) n
            (if_pos rfl) (by rw [← List.cons_append]; exact List.getLast?_concat _),
          if_pos (show n = n from rfl),
          show (b :: (B' ++ [n])).dropLast = b :: B' from by
            rw [← List.cons_append, List.dropLast_concat],
          if_neg (show ¬((0 : Nat) :: b :: (B' ++ [n]) = []
              ∨ (0 : Nat) :: b :: (B' ++ [n]) = [0]) from by simp),
          show List.filter (fun i => decide (i ≠ 0) && decide (i ≠ n))
              (0 :: b :: (B' ++ [n])) = b :: B' from by
            rw [List.filter_cons, if_neg (by simp), ← List.cons_append,
              List.filter_append, hfB]
            simp [hn0]]

/-- `breakage_indexes` on a nonempty chromosome splits into a head block
(`[]` or `[0]`), an internal block of indices strictly between 0 and the
chromosome length, and a tail block (`[]` or `[len]`). -/
lemma breakage_indexes_decomp (c0 : Segment) (rest : List Segment)
    (me : List Position) :
    ∃ A B C : List Nat,
      breakage_indexes (c0 :: rest) me = A ++ B ++ C
      ∧ (A = [] ∨ A = [0])
      ∧ (∀ x ∈ B, 0 < x ∧ x < (c0 :: rest).length)
      ∧ (C = [] ∨ C = [(c0 :: rest).length]) := by
  refine ⟨(if c0.start_position ∈ me then [] else [0]),
    ((List.range ((c0 :: rest).length - 1)).filterMap fun i =>
      match (c0 :: rest)[i]?, (c0 :: rest)[i + 1]? with
      | some s1, some s2 =>
          if s1.end_position ∉ me ∧ s2.start_position ∉ me then some (i + 1)
          else none
      | _, _ => none),
    (match (c0 :: rest).getLast? with
      | some sl => if sl.end_position ∈ me then [] else [(c0 :: rest).length]
      | none => []), ?_, ?_, ?_, ?_⟩
  · rfl
  · by_cases hm : c0.start_position ∈ me <;> simp [hm]
  · intro x hx
    simp only [List.mem_filterMap, List.mem_range] at hx
    obtain ⟨j, hj, hfj⟩ := hx
    have hx_eq : x = j + 1 := by
      rcases e1 : (c0 :: rest)[j]? with _ | s1
      · rw [e1] at hfj
        exact absurd hfj (by simp)
      · rcases e2 : (c0 :: rest)[j + 1]? with _ | s2
        · rw [e1, e2] at hfj
          exact absurd hfj (by simp)
        · rw [e1, e2] at hfj
          by_cases hc : (s1.end_position ∉ me ∧ s2.start_position ∉ me)
          · simp only [if_pos hc] at hfj
            injection hfj with h
            exact h.symm
          · simp only [if_neg hc] at hfj
            exact absurd hfj (by simp)
    subst hx_eq
    simp only [List.length_cons] at hj ⊢
    omega
  · rcases hl : (c0 :: rest).getLast? with _ | sl
    · rw [List.getLast?_eq_getLast _ (by simp)] at hl
      simp at hl
    · by_cases hm : sl.end_position ∈ me <;> simp [hm]

/-- C5 amended: with the arm flags false, the reversal and deletion
generators raise an `IndexError` exactly when the breakage-index list is
`[]` or `[0]` (instead of retrying), otherwise they drop index 0 and index
`len(chromosome)` when present and retry exactly when fewer than 2 indices
remain; the duplication generator applies no arm filtering at all and
retries exactly when its unfiltered list has fewer than 2 indices,
including the empty case. -/
theorem arm_filter_amended (chromosome : Chromosome) (config : MutationsConfig)
    (hrev : config.mut_types_spec.arm_reversal = false)
    (hdel : config.mut_types_spec.arm_deletion = false) :
    (generate_duplication_step chromosome config =
      (if 2 ≤ (breakage_indexes chromosome (me_list config)).length
       then GenStep.proceed (breakage_indexes chromosome (me_list config))
       else GenStep.retry))
    ∧ (generate_reversal_step chromosome config =
        (if breakage_indexes chromosome (me_list config) = []
            ∨ breakage_indexes chromosome (me_list config) = [0]
         then GenStep.indexError
         else
           (if 2 ≤ ((breakage_indexes chromosome (me_list config)).filter
                fun i => decide (i ≠ 0) && decide (i ≠ chromosome.length)).length
            then GenStep.proceed ((breakage_indexes chromosome (me_list config)).filter
                fun i => decide (i ≠ 0) && decide (i ≠ chromosome.length))
            else GenStep.retry)))
    ∧ generate_deletion_step chromosome config
        = generate_reversal_step chromosome config := by
  refine ⟨rfl, ?_, ?_⟩
  · rw [generate_reversal_step, if_neg (by rw [hrev]; exact Bool.false_ne_true)]
    cases chromosome with
    | nil => rfl
    | cons c0 rest =>
        obtain ⟨A, B, C, hsplit, hA, hB, hC⟩ := breakage_indexes_decomp c0 rest
          (me_list config)
        rw [hsplit]
        exact arm_filter_step_eq A B C (c0 :: rest).length (by simp) hA hB hC
  · rw [generate_deletion_step, generate_reversal_step,
      if_neg (by rw [hdel]; exact Bool.false_ne_true),
      if_neg (by rw [hrev]; exact Bool.false_ne_true)]

/-- The chromosome of the C5 counterexample: a single segment both of whose
terminal positions are already mutated extremities. -/
def satSeg : Segment :=
  { start_position := ⟨1, 0, false⟩, end_position := ⟨1, 50, true⟩,
    chromosome := 1, is_reversed := false }

/-- The config of the C5 counterexample: the default flags with both
terminal positions of `satSeg` recorded as mutated extremities. -/
def satConfig : MutationsConfig :=
  { MUTATION_CONFIG with mutated_extremities := some [⟨1, 0, false⟩, ⟨1, 50, true⟩] }

/-- A three-segment chromosome with no mutated extremities, used to show
that the duplication generator keeps indices 0 and `len`. -/
def freeChrom3 : Chromosome :=
  [{ start_position := ⟨1, 0, false⟩, end_position := ⟨1, 10, true⟩,
     chromosome := 1, is_reversed := false },
   { start_position := ⟨1, 10, false⟩, end_position := ⟨1, 20, true⟩,
     chromosome := 1, is_reversed := false },
   { start_position := ⟨1, 20, false⟩, end_position := ⟨1, 30, true⟩,
     chromosome := 1, is_reversed := false }]

/-- The config with an empty mutated-extremities set and default flags. -/
def freeConfig : MutationsConfig :=
  { MUTATION_CONFIG with mutated_extremities := some [] }

/-- C5 counterexample: with the arm flags false, a chromosome with an empty
breakage-index list makes the reversal and deletion generators raise an
`IndexError` (`br_indexes[0]` on an empty list) instead of retrying; and the
duplication generator performs no arm filtering: it proceeds with indices 0
and `len(chromosome)` = 3 still in its candidate list. -/
theorem arm_filter_claim_counterexample :
    MUTATION_CONFIG.mut_types_spec.arm_reversal = false
    ∧ MUTATION_CONFIG.mut_types_spec.arm_deletion = false
    ∧ breakage_indexes [satSeg] (me_list satConfig) = []
    ∧ generate_reversal_step [satSeg] satConfig = GenStep.indexError
    ∧ generate_deletion_step [satSeg] satConfig = GenStep.indexError
    ∧ breakage_indexes freeChrom3 (me_list freeConfig) = [0, 1, 2, 3]
    ∧ generate_duplication_step freeChrom3 freeConfig
        = GenStep.proceed [0, 1, 2, 3] := by
  decide

/-- Concrete instantiation of the amended C5 statement on `freeChrom3`: the
duplication generator proceeds with the unfiltered list [0, 1, 2, 3] while
the reversal and deletion generators proceed with the filtered list
[1, 2]. -/
theorem arm_filter_amended_witness :
    generate_duplication_step freeChrom3 freeConfig = GenStep.proceed [0, 1, 2, 3]
    ∧ generate_reversal_step freeChrom3 freeConfig = GenStep.proceed [1, 2]
    ∧ generate_deletion_step freeChrom3 freeConfig = GenStep.proceed [1, 2] := by
  have h := arm_filter_amended freeChrom3 freeConfig rfl rfl
  refine ⟨?_, ?_, ?_⟩
  · rw [h.1]
    decide
  · rw [h.2.1]
    decide
  · rw [h.2.2, h.2.1]
    decide

/-- Modelled from the spec: `reverse_segment` (dassp.simulation.parts,
outside the simulation sources) flips a segment's internal orientation,
exchanging its two extremities and toggling `is_reversed`. -/
def reverse_segment (segment : Segment) : Segment :=
  { start_position := segment.end_position,
    end_position := segment.start_position,
    chromosome := segment.chromosome,
    is_reversed := !segment.is_reversed }

/-- Modelled from the spec: `reverse_segments` (dassp.simulation.parts)
reverses the subrange `[start, end)` of a chromosome, reversing each segment
inside it. -/
def reverse_segments (chromosome : Chromosome) (start_segment_index end_segment_index : Nat) :
    Chromosome :=
  chromosome.take start_segment_index
  ++ (((chromosome.drop start_segment_index).take
        (end_segment_index - start_segment_index)).map reverse_segment).reverse
  ++ chromosome.drop end_segment_index

/-- Modelled from the spec: `duplicate_segments` (dassp.simulation.parts)
duplicates the subrange `[start, end)` of a chromosome in place. -/
def duplicate_segments (chromosome : Chromosome) (start_segment_index end_segment_index : Nat) :
    Chromosome :=
  chromosome.take end_segment_index
  ++ (chromosome.drop start_segment_index).take (end_segment_index - start_segment_index)
  ++ chromosome.drop end_segment_index

/-- Modelled from the spec: `delete_segments` (dassp.simulation.parts)
removes the subrange `[start, end)` of a chromosome. -/
def delete_segments (chromosome : Chromosome) (start_segment_index end_segment_index : Nat) :
    Chromosome :=
  chromosome.take start_segment_index ++ chromosome.drop end_segment_index

/-- Modelled from the spec: `translocation_segments` (dassp.simulation.parts)
exchanges the arms of two chromosomes at the given split indices; the `cc`
orientation flag selects how the four arms are re-joined (either straight
exchange, or with the leading arms reversed), conserving the total segment
count. -/
def translocation_segments (chromosome1 chromosome2 : Chromosome)
    (chromosome1_segment_index chromosome2_segment_index : Nat) (cc : Bool) :
    Chromosome × Chromosome :=
  if cc then
    (chromosome1.take chromosome1_segment_index
       ++ chromosome2.drop chromosome2_segment_index,
     chromosome2.take chromosome2_segment_index
       ++ chromosome1.drop chromosome1_segment_index)
  else
    (chromosome1.take chromosome1_segment_index
       ++ ((chromosome2.take chromosome2_segment_index).map reverse_segment).reverse,
     ((chromosome1.drop chromosome1_segment_index).map reverse_segment).reverse
       ++ chromosome2.drop chromosome2_segment_index)

/-- The type-specific index payload of `mutation_data`: the dictionary keys
written by each generator (manager.py lines 119-125, 151-157, 188-194 and
253-261), minus the common `positions` entry. -/
inductive MutationData where
  | reversalData (chromosome_index reversal_start_index reversal_end_index : Nat)
  | duplicationData (chromosome_index duplication_start_index duplication_end_index : Nat)
  | deletionData (chromosome_index deletion_start_index deletion_end_index : Nat)
  | translocationData (chr1_index chr2_index chr1_transl_index chr2_transl_index : Nat)
      (cc : Bool)
deriving DecidableEq

/-- A `Mutation` (dassp.simulation.parts): the tagged `mutation_data`
payload plus the `positions` entry, the up-to-4 boundary positions the event
touches (`None` entries model chromosome termini).  The source also stores a
`mutation_type` tag; every constructor call pairs it with the matching
payload, so here it is derived from the payload. -/
structure Mutation where
  mutation_data : MutationData
  positions : List (Option Position)
deriving DecidableEq

/-- The `mutation_type` tag of a mutation. -/
def Mutation.mutation_type (mutation : Mutation) : MutationType :=
  match mutation.mutation_data with
  | MutationData.reversalData _ _ _ => MutationType.REVERSAL
  | MutationData.duplicationData _ _ _ => MutationType.DUPLICATION
  | MutationData.deletionData _ _ _ => MutationType.DELETION
  | MutationData.translocationData _ _ _ _ _ => MutationType.TRANSLOCATION

/-- `apply_mutation` (manager.py lines 264-268) composed with the dispatch
table `MUTATION_TYPES_to_MUTATING_FUNCTIONS` (lines 334-339) and the four
appliers (lines 271-324), at genome-value level: each applier deep-copies
the genome (a value copy here), rebuilds the affected chromosome(s) with the
corresponding segment-sequence primitive and stores the result back at the
same chromosome index.  Out-of-range chromosome indices, which raise in
Python and never occur for generated mutations, read as the empty
chromosome. -/
def apply_mutation (genome : Genome) (mutation : Mutation) : Genome :=
  match mutation.mutation_data with
  | MutationData.reversalData ci s e =>
      genome.set ci (reverse_segments (genome.getD ci []) s e)
  | MutationData.duplicationData ci s e =>
      genome.set ci (duplicate_segments (genome.getD ci []) s e)
  | MutationData.deletionData ci s e =>
      genome.set ci (delete_segments (genome.getD ci []) s e)
  | MutationData.translocationData c1 c2 t1 t2 cc =>
      let pair := translocation_segments (genome.getD c1 []) (genome.getD c2 []) t1 t2 cc
      (genome.set c1 pair.1).set c2 pair.2

/-- The history dictionary built by `generate_mutated_genome`: the ordered
genome snapshots under `"genomes"` and the applied mutations under
`"mutations"`. -/
structure History where
  genomes : List Genome
  mutations : List Mutation
deriving DecidableEq

/-- `mutations_config[ME].add(p)` for every non-null `p` in
`mutation.mutation_data["positions"]` (manager.py lines 356-358). -/
def add_positions (me : List Position) (positions : List (Option Position)) :
    List Position :=
  positions.foldl (fun s popt =>
    match popt with
    | none => s
    | some p => s.insert p) me

/-- The `for _ in range(mutation_cnt)` loop of `generate_mutated_genome`
(manager.py lines 350-359).  The per-iteration randomness (the sampled
mutation type and every random draw inside the dispatched generator, whose
retry loop is unbounded) is abstracted into the oracle `gen`, which yields
the iteration's generated mutation from the iteration number, the current
genome and the current config.  Each iteration appends the mutation, applies
it, adds its non-null positions to the config's mutated-extremities set and
appends the new genome. -/
def generate_mutated_genome_loop (gen : Nat → Genome → MutationsConfig → Mutation) :
    Nat → Nat → Genome → History → MutationsConfig → History × MutationsConfig
  | 0, _, _, history, config => (history, config)
  | Nat.succ k, i, current_genome, history, config =>
      let mutation := gen i current_genome config
      let history1 : History :=
        { history with mutations := history.mutations ++ [mutation] }
      let next_genome := apply_mutation current_genome mutation
      let config1 : MutationsConfig :=
        { config with
            mutated_extremities := some (add_positions (me_list config) mutation.positions) }
      let history2 : History :=
        { history1 with genomes := history1.genomes ++ [next_genome] }
      generate_mutated_genome_loop gen k (i + 1) next_genome history2 config1

/-- `generate_mutated_genome(starting_genome, mutation_cnt, mutations_config)`
(manager.py lines 342-360): insert the `mutated_extremities` key when
absent, deep-copy the starting genome (a value copy here), seed the history
with it, and run the driver loop.  The source mutates `mutations_config` in
place; the model returns the updated config alongside the history. -/
def generate_mutated_genome (starting_genome : Genome) (mutation_cnt : Nat)
    (mutations_config : MutationsConfig)
    (gen : Nat → Genome → MutationsConfig → Mutation) : History × MutationsConfig :=
  let config0 :=
    if mutations_config.mutated_extremities.isNone then
      { mutations_config with mutated_extremities := some [] }
    else mutations_config
  let current_genome := starting_genome
  generate_mutated_genome_loop gen mutation_cnt 0 current_genome
    { genomes := [current_genome], mutations := [] } config0

/-- The loop adds one genome and one mutation per iteration and preserves
the head of a nonempty genome list. -/
lemma generate_mutated_genome_loop_counts
    (gen : Nat → Genome → MutationsConfig → Mutation) (k : Nat) :
    ∀ (i : Nat) (current_genome : Genome) (history : History)
      (config : MutationsConfig),
      (generate_mutated_genome_loop gen k i current_genome history config).1.genomes.length
          = history.genomes.length + k
      ∧ (generate_mutated_genome_loop gen k i current_genome history config).1.mutations.length
          = history.mutations.length + k
      ∧ (history.genomes ≠ [] →
          (generate_mutated_genome_loop gen k i current_genome history config).1.genomes.head?
            = history.genomes.head?) := by
  induction k with
  | zero =>
      intro i current_genome history config
      exact ⟨rfl, rfl, fun _ => rfl⟩
  | succ k ih =>
      intro i current_genome history config
      rw [generate_mutated_genome_loop]
      refine ⟨?_, ?_, ?_⟩
      · rw [(ih _ _ _ _).1]
        simp only [List.length_append, List.length_singleton]
        omega
      · rw [(ih _ _ _ _).2.1]
        simp only [List.length_append, List.length_singleton]
        omega
      · intro hne
        rw [(ih _ _ _ _).2.2 (by simp)]
        cases hgen : history.genomes with
        | nil => exact absurd hgen hne
        | cons g gs => rfl

/-- C7: for every starting genome, mutation count and config, the history
returned by `generate_mutated_genome` holds exactly `mutation_cnt + 1`
genome snapshots, the first of which is the starting genome, and exactly
`mutation_cnt` mutations. -/
theorem generate_mutated_genome_history_counts (starting_genome : Genome)
    (mutation_cnt : Nat) (mutations_config : MutationsConfig)
    (gen : Nat → Genome → MutationsConfig → Mutation) :
    (generate_mutated_genome starting_genome mutation_cnt mutations_config gen).1.genomes.length
        = mutation_cnt + 1
    ∧ (generate_mutated_genome starting_genome mutation_cnt mutations_config gen).1.mutations.length
        = mutation_cnt
    ∧ (generate_mutated_genome starting_genome mutation_cnt mutations_config gen).1.genomes.head?
        = some starting_genome := by
  have h := generate_mutated_genome_loop_counts gen mutation_cnt 0 starting_genome
    { genomes := [starting_genome], mutations := [] }
    (if mutations_config.mutated_extremities.isNone then
      { mutations_config with mutated_extremities := some [] }
    else mutations_config)
  refine ⟨?_, ?_, ?_⟩
  · rw [generate_mutated_genome, h.1]
    simp [Nat.add_comm]
  · rw [generate_mutated_genome, h.2.1]
    simp
  · rw [generate_mutated_genome, h.2.2 (by simp)]
    rfl

/-- `set.add` keeps existing members. -/
lemma mem_add_positions_of_mem (positions : List (Option Position))
    (me : List Position) (p : Position) (hp : p ∈ me) :
    p ∈ add_positions me positions := by
  induction positions generalizing me with
  | nil => exact hp
  | cons popt rest ih =>
      cases popt with
      | none => exact ih me hp
      | some q => exact ih (me.insert q) (List.mem_insert_of_mem hp)

/-- Every non-null recorded position enters the set. -/
lemma mem_add_positions_self (positions : List (Option Position))
    (me : List Position) (p : Position) (hp : some p ∈ positions) :
    p ∈ add_positions me positions := by
  induction positions generalizing me with
  | nil => simp at hp
  | cons popt rest ih =>
      rcases List.mem_cons.mp hp with heq | hmem
      · cases heq
        exact mem_add_positions_of_mem rest _ p (List.mem_insert_self p me)
      · cases popt with
        | none => exact ih me hmem
        | some q => exact ih (me.insert q) hmem

/-- The driver loop only grows the mutated-extremities set. -/
lemma generate_mutated_genome_loop_me_monotone
    (gen : Nat → Genome → MutationsConfig → Mutation) (k : Nat) :
    ∀ (i : Nat) (current_genome : Genome) (history : History)
      (config : MutationsConfig) (p : Position), p ∈ me_list config →
      p ∈ me_list (generate_mutated_genome_loop gen k i current_genome history config).2 := by
  induction k with
  | zero => intro i current_genome history config p hp; exact hp
  | succ k ih =>
      intro i current_genome history config p hp
      rw [generate_mutated_genome_loop]
      exact ih _ _ _ _ p (mem_add_positions_of_mem _ _ p hp)

/-- The driver loop keeps the mutated-extremities key present. -/
lemma generate_mutated_genome_loop_me_isSome
    (gen : Nat → Genome → MutationsConfig → Mutation) (k : Nat) :
    ∀ (i : Nat) (current_genome : Genome) (history : History)
      (config : MutationsConfig),
      config.mutated_extremities.isSome = true →
      (generate_mutated_genome_loop gen k i current_genome history
          config).2.mutated_extremities.isSome = true := by
  induction k with
  | zero => intro i current_genome history config h; exact h
  | succ k ih =>
      intro i current_genome history config _
      rw [generate_mutated_genome_loop]
      exact ih _ _ _ _ rfl

/-- Every non-null position of every mutation recorded by the loop ends up
in the final mutated-extremities set. -/
lemma generate_mutated_genome_loop_positions
    (gen : Nat → Genome → MutationsConfig → Mutation) (k : Nat) :
    ∀ (i : Nat) (current_genome : Genome) (history : History)
      (config : MutationsConfig),
      (∀ m ∈ history.mutations, ∀ p : Position, some p ∈ m.positions →
        p ∈ me_list config) →
      ∀ m ∈ (generate_mutated_genome_loop gen k i current_genome history config).1.mutations,
        ∀ p : Position, some p ∈ m.positions →
          p ∈ me_list (generate_mutated_genome_loop gen k i current_genome history config).2 := by
  induction k with
  | zero => intro i current_genome history config h; exact h
  | succ k ih =>
      intro i current_genome history config h
      rw [generate_mutated_genome_loop]
      refine ih _ _ _ _ ?_
      intro m hm p hp
      rcases List.mem_append.mp hm with hold | hnew
      · exact mem_add_positions_of_mem _ _ p (h m hold p hp)
      · obtain rfl : m = gen i current_genome config := by simpa using hnew
        exact mem_add_positions_self _ _ p hp

/-- The driver's entry step only grows the mutated-extremities set. -/
lemma generate_mutated_genome_me_monotone (starting_genome : Genome)
    (mutation_cnt : Nat) (mutations_config : MutationsConfig)
    (gen : Nat → Genome → MutationsConfig → Mutation) (p : Position)
    (hp : p ∈ me_list mutations_config) :
    p ∈ me_list (generate_mutated_genome starting_genome mutation_cnt
        mutations_config gen).2 := by
  rw [generate_mutated_genome]
  by_cases h : mutations_config.mutated_extremities.isNone = true
  · rw [Option.isNone_iff_eq_none] at h
    rw [me_list, h] at hp
    simp at hp
  · rw [if_neg h]
    exact generate_mutated_genome_loop_me_monotone gen mutation_cnt _ _ _ _ p hp

/-- C10: `generate_mutated_genome` updates the config it receives: the
default `MUTATION_CONFIG` lacks the mutated-extremities key, the returned
config holds it, and every non-null boundary position of every recorded
mutation is in the returned config's mutated-extremities set.  Because the
source mutates the module-level default config object in place, a second
call that omits the config argument sees the first call's returned config
(modelled here by threading it): the first run's positions are still in the
second run's final set, and any breakage-index computation over a set
containing such a position can never offer a split index adjacent to it. -/
theorem generate_mutated_genome_mutates_shared_config
    (g1 : Genome) (n1 : Nat) (gen1 : Nat → Genome → MutationsConfig → Mutation)
    (g2 : Genome) (n2 : Nat) (gen2 : Nat → Genome → MutationsConfig → Mutation) :
    MUTATION_CONFIG.mutated_extremities = none
    ∧ (generate_mutated_genome g1 n1 MUTATION_CONFIG
        gen1).2.mutated_extremities.isSome = true
    ∧ ∀ m ∈ (generate_mutated_genome g1 n1 MUTATION_CONFIG gen1).1.mutations,
        ∀ p : Position, some p ∈ m.positions →
          (p ∈ me_list (generate_mutated_genome g1 n1 MUTATION_CONFIG gen1).2
           ∧ p ∈ me_list (generate_mutated_genome g2 n2
               (generate_mutated_genome g1 n1 MUTATION_CONFIG gen1).2 gen2).2
           ∧ ∀ (chromosome : Chromosome) (me2 : List Position),
               me_list (generate_mutated_genome g1 n1 MUTATION_CONFIG gen1).2 ⊆ me2 →
               ∀ i ∈ breakage_indexes chromosome me2,
                 p ∉ index_boundary_positions chromosome i) := by
  refine ⟨rfl, ?_, ?_⟩
  · rw [generate_mutated_genome]
    exact generate_mutated_genome_loop_me_isSome gen1 n1 _ _ _ _ rfl
  · have hpos : ∀ m ∈ (generate_mutated_genome g1 n1 MUTATION_CONFIG gen1).1.mutations,
        ∀ p : Position, some p ∈ m.positions →
          p ∈ me_list (generate_mutated_genome g1 n1 MUTATION_CONFIG gen1).2 := by
      rw [generate_mutated_genome]
      refine generate_mutated_genome_loop_positions gen1 n1 0 g1 _ _ ?_
      intro m hm
      simp at hm
    intro m hm p hp
    refine ⟨hpos m hm p hp, ?_, ?_⟩
    · exact generate_mutated_genome_me_monotone g2 n2 _ gen2 p (hpos m hm p hp)
    · intro chromosome me2 hsub i hi hpb
      exact breakage_indexes_avoid_me chromosome me2 i hi p hpb (hsub (hpos m hm p hp))

/-- The position recorded by the concrete mutation of the C10 witness. -/
def wPos : Position := ⟨2, 5, false⟩

/-- The concrete mutation of the C10 witness: a reversal whose recorded
boundary positions are `wPos` and a terminus. -/
def wMut : Mutation :=
  { mutation_data := MutationData.reversalData 0 0 1,
    positions := [some wPos, none] }

/-- The constant generation oracle of the C10 witness. -/
def wGen : Nat → Genome → MutationsConfig → Mutation := fun _ _ _ => wMut

/-- Concrete instantiation of the C10 statement: after one driver iteration
that records `wPos`, the returned config's mutated-extremities set contains
`wPos`, and it persists through a second driver call reusing that config. -/
theorem generate_mutated_genome_mutates_shared_config_witness :
    wMut ∈ (generate_mutated_genome [[wSeg1]] 1 MUTATION_CONFIG wGen).1.mutations
    ∧ wPos ∈ me_list (generate_mutated_genome [[wSeg1]] 1 MUTATION_CONFIG wGen).2
    ∧ wPos ∈ me_list (generate_mutated_genome [[wSeg2]] 2
        (generate_mutated_genome [[wSeg1]] 1 MUTATION_CONFIG wGen).2 wGen).2 := by
  have h := generate_mutated_genome_mutates_shared_config [[wSeg1]] 1 wGen [[wSeg2]] 2 wGen
  have hm : wMut ∈ (generate_mutated_genome [[wSeg1]] 1 MUTATION_CONFIG wGen).1.mutations := by
    decide
  have hp : some wPos ∈ wMut.positions := by decide
  exact ⟨hm, (h.2.2 wMut hm wPos hp).1, (h.2.2 wMut hm wPos hp).2.1⟩

/-- A fragment of the Python heap as the appliers see it: chromosome list
objects and genome list objects (lists of chromosome references), addressed
by their index in the store.  New objects are appended; only genome objects
are ever written in place by the appliers. -/
structure PyHeap where
  chromStore : List Chromosome
  genomeStore : List (List Nat)
deriving DecidableEq

/-- `getD` only reads the left part of an append below its length. -/
lemma getD_append_lt {α : Type} (l l' : List α) (i : Nat) (d : α)
    (h : i < l.length) : (l ++ l').getD i d = l.getD i d := by
  rw [List.getD_eq_getElem?_getD, List.getD_eq_getElem?_getD,
    List.getElem?_append_left h]

/-- Writing the freshly appended cell of a store leaves the old cells
unchanged. -/
lemma getD_set_append {α : Type} (l : List α) (y z : α) (i : Nat) (d : α)
    (h : i < l.length) : ((l ++ [y]).set l.length z).getD i d = l.getD i d := by
  rw [List.getD_eq_getElem?_getD, List.getElem?_set_ne (show l.length ≠ i by omega),
    List.getElem?_append_left h, ← List.getD_eq_getElem?_getD]

namespace Heap

/-- `deepcopy(genome)` (used by every applier, manager.py lines 272, 285,
298 and 311): allocate a fresh copy of every chromosome object reachable
from the genome object and a fresh genome object pointing at the copies;
return the new genome object's reference. -/
def deepcopy_genome (heap : PyHeap) (genome_ref : Nat) : PyHeap × Nat :=
  let chrom_refs := heap.genomeStore.getD genome_ref []
  let base := heap.chromStore.length
  let copies := chrom_refs.map fun r => heap.chromStore.getD r []
  let new_refs := (List.range chrom_refs.length).map fun j => base + j
  ({ chromStore := heap.chromStore ++ copies,
     genomeStore := heap.genomeStore ++ [new_refs] },
   heap.genomeStore.length)

/-- `apply_reversal` (manager.py lines 271-281) under reference semantics:
deep-copy the genome, read the affected chromosome of the copy, build the
reversed chromosome with `reverse_segments`, allocate it and write its
reference into the copied genome object (`new_genome[chr_index] = ...`).
A mutation whose payload does not carry reversal keys makes the source
raise a `KeyError` before any write; the model returns the untouched
copy. -/
def apply_reversal (heap : PyHeap) (genome_ref : Nat) (mutation : Mutation) :
    PyHeap × Nat :=
  let dc := deepcopy_genome heap genome_ref
  let heap1 := dc.1
  let new_genome_ref := dc.2
  match mutation.mutation_data with
  | MutationData.reversalData chr_index rev_start rev_end =>
      let new_genome := heap1.genomeStore.getD new_genome_ref []
      let chromosome := heap1.chromStore.getD (new_genome.getD chr_index 0) []
      let new_chromosome := reverse_segments chromosome rev_start rev_end
      let nc_ref := heap1.chromStore.length
      ({ chromStore := heap1.chromStore ++ [new_chromosome],
         genomeStore := heap1.genomeStore.set new_genome_ref
           (new_genome.set chr_index nc_ref) },
       new_genome_ref)
  | _ => (heap1, new_genome_ref)

/-- `apply_duplication` (manager.py lines 284-294) under reference
semantics. -/
def apply_duplication (heap : PyHeap) (genome_ref : Nat) (mutation : Mutation) :
    PyHeap × Nat :=
  let dc := deepcopy_genome heap genome_ref
  let heap1 := dc.1
  let new_genome_ref := dc.2
  match mutation.mutation_data with
  | MutationData.duplicationData chr_index dup_start dup_end =>
      let new_genome := heap1.genomeStore.getD new_genome_ref []
      let chromosome := heap1.chromStore.getD (new_genome.getD chr_index 0) []
      let new_chromosome := duplicate_segments chromosome dup_start dup_end
      let nc_ref := heap1.chromStore.length
      ({ chromStore := heap1.chromStore ++ [new_chromosome],
         genomeStore := heap1.genomeStore.set new_genome_ref
           (new_genome.set chr_index nc_ref) },
       new_genome_ref)
  | _ => (heap1, new_genome_ref)

/-- `apply_deletion` (manager.py lines 297-307) under reference
semantics. -/
def apply_deletion (heap : PyHeap) (genome_ref : Nat) (mutation : Mutation) :
    PyHeap × Nat :=
  let dc := deepcopy_genome heap genome_ref
  let heap1 := dc.1
  let new_genome_ref := dc.2
  match mutation.mutation_data with
  | MutationData.deletionData chr_index del_start del_end =>
      let new_genome := heap1.genomeStore.getD new_genome_ref []
      let chromosome := heap1.chromStore.getD (new_genome.getD chr_index 0) []
      let new_chromosome := delete_segments chromosome del_start del_end
      let nc_ref := heap1.chromStore.length
      ({ chromStore := heap1.chromStore ++ [new_chromosome],
         genomeStore := heap1.genomeStore.set new_genome_ref
           (new_genome.set chr_index nc_ref) },
       new_genome_ref)
  | _ => (heap1, new_genome_ref)

/-- `apply_translocation` (manager.py lines 310-324) under reference
semantics: both rebuilt chromosomes are allocated fresh and written into the
copied genome object. -/
def apply_translocation (heap : PyHeap) (genome_ref : Nat) (mutation : Mutation) :
    PyHeap × Nat :=
  let dc := deepcopy_genome heap genome_ref
  let heap1 := dc.1
  let new_genome_ref := dc.2
  match mutation.mutation_data with
  | MutationData.translocationData chr1_index chr2_index t1 t2 cc =>
      let new_genome := heap1.genomeStore.getD new_genome_ref []
      let chromosome_1 := heap1.chromStore.getD (new_genome.getD chr1_index 0) []
      let chromosome_2 := heap1.chromStore.getD (new_genome.getD chr2_index 0) []
      let pair := translocation_segments chromosome_1 chromosome_2 t1 t2 cc
      let r1 := heap1.chromStore.length
      let r2 := heap1.chromStore.length + 1
      ({ chromStore := heap1.chromStore ++ [pair.1, pair.2],
         genomeStore := heap1.genomeStore.set new_genome_ref
           ((new_genome.set chr1_index r1).set chr2_index r2) },
       new_genome_ref)
  | _ => (heap1, new_genome_ref)

/-- `apply_mutation` (manager.py lines 264-268) with the dispatch table
`MUTATION_TYPES_to_MUTATING_FUNCTIONS` (lines 334-339); all four enum
members are in the table, so the unsupported-type branch is unreachable
here. -/
def apply_mutation (heap : PyHeap) (genome_ref : Nat) (mutation : Mutation) :
    PyHeap × Nat :=
  match mutation.mutation_type with
  | MutationType.REVERSAL => apply_reversal heap genome_ref mutation
  | MutationType.DUPLICATION => apply_duplication heap genome_ref mutation
  | MutationType.DELETION => apply_deletion heap genome_ref mutation
  | MutationType.TRANSLOCATION => apply_translocation heap genome_ref mutation

end Heap

/-- An applier preserves the caller-visible input genome: for every valid
genome reference, the input genome object and every chromosome object it
references read the same after the call as before. -/
def preserves_input_genome (apply : PyHeap → Nat → Mutation → PyHeap × Nat) : Prop :=
  ∀ (heap : PyHeap) (genome_ref : Nat) (mutation : Mutation),
    genome_ref < heap.genomeStore.length →
    (∀ chrom_ref ∈ heap.genomeStore.getD genome_ref [],
        chrom_ref < heap.chromStore.length) →
    ((apply heap genome_ref mutation).1.genomeStore.getD genome_ref []
        = heap.genomeStore.getD genome_ref []
     ∧ ∀ chrom_ref ∈ heap.genomeStore.getD genome_ref [],
         (apply heap genome_ref mutation).1.chromStore.getD chrom_ref []
           = heap.chromStore.getD chrom_ref [])

/-- The frame property of `apply_reversal`. -/
lemma apply_reversal_frame : preserves_input_genome Heap.apply_reversal := by
  intro heap genome_ref mutation hg hc
  obtain ⟨md, pos⟩ := mutation
  cases md with
  | reversalData ci s e =>
      simp only [Heap.apply_reversal, Heap.deepcopy_genome]
      constructor
      · exact getD_set_append _ _ _ _ _ hg
      · intro chrom_ref hmem
        rw [List.append_assoc]
        exact getD_append_lt _ _ _ _ (hc chrom_ref hmem)
  | duplicationData ci s e =>
      simp only [Heap.apply_reversal, Heap.deepcopy_genome]
      exact ⟨getD_append_lt _ _ _ _ hg,
        fun chrom_ref hmem => getD_append_lt _ _ _ _ (hc chrom_ref hmem)⟩
  | deletionData ci s e =>
      simp only [Heap.apply_reversal, Heap.deepcopy_genome]
      exact ⟨getD_append_lt _ _ _ _ hg,
        fun chrom_ref hmem => getD_append_lt _ _ _ _ (hc chrom_ref hmem)⟩
  | translocationData c1 c2 t1 t2 cc =>
      simp only [Heap.apply_reversal, Heap.deepcopy_genome]
      exact ⟨getD_append_lt _ _ _ _ hg,
        fun chrom_ref hmem => getD_append_lt _ _ _ _ (hc chrom_ref hmem)⟩

/-- The frame property of `apply_duplication`. -/
lemma apply_duplication_frame : preserves_input_genome Heap.apply_duplication := by
  intro heap genome_ref mutation hg hc
  obtain ⟨md, pos⟩ := mutation
  cases md with
  | duplicationData ci s e =>
      simp only [Heap.apply_duplication, Heap.deepcopy_genome]
      constructor
      · exact getD_set_append _ _ _ _ _ hg
      · intro chrom_ref hmem
        rw [List.append_assoc]
        exact getD_append_lt _ _ _ _ (hc chrom_ref hmem)
  | reversalData ci s e =>
      simp only [Heap.apply_duplication, Heap.deepcopy_genome]
      exact ⟨getD_append_lt _ _ _ _ hg,
        fun chrom_ref hmem => getD_append_lt _ _ _ _ (hc chrom_ref hmem)⟩
  | deletionData ci s e =>
      simp only [Heap.apply_duplication, Heap.deepcopy_genome]
      exact ⟨getD_append_lt _ _ _ _ hg,
        fun chrom_ref hmem => getD_append_lt _ _ _ _ (hc chrom_ref hmem)⟩
  | translocationData c1 c2 t1 t2 cc =>
      simp only [Heap.apply_duplication, Heap.deepcopy_genome]
      exact ⟨getD_append_lt _ _ _ _ hg,
        fun chrom_ref hmem => getD_append_lt _ _ _ _ (hc chrom_ref hmem)⟩

/-- The frame property of `apply_deletion`. -/
lemma apply_deletion_frame : preserves_input_genome Heap.apply_deletion := by
  intro heap genome_ref mutation hg hc
  obtain ⟨md, pos⟩ := mutation
  cases md with
  | deletionData ci s e =>
      simp only [Heap.apply_deletion, Heap.deepcopy_genome]
      constructor
      · exact getD_set_append _ _ _ _ _ hg
      · intro chrom_ref hmem
        rw [List.append_assoc]
        exact getD_append_lt _ _ _ _ (hc chrom_ref hmem)
  | reversalData ci s e =>
      simp only [Heap.apply_deletion, Heap.deepcopy_genome]
      exact ⟨getD_append_lt _ _ _ _ hg,
        fun chrom_ref hmem => getD_append_lt _ _ _ _ (hc chrom_ref hmem)⟩
  | duplicationData ci s e =>
      simp only [Heap.apply_deletion, Heap.deepcopy_genome]
      exact ⟨getD_append_lt _ _ _ _ hg,
        fun chrom_ref hmem => getD_append_lt _ _ _ _ (hc chrom_ref hmem)⟩
  | translocationData c1 c2 t1 t2 cc =>
      simp only [Heap.apply_deletion, Heap.deepcopy_genome]
      exact ⟨getD_append_lt _ _ _ _ hg,
        fun chrom_ref hmem => getD_append_lt _ _ _ _ (hc chrom_ref hmem)⟩

/-- The frame property of `apply_translocation`. -/
lemma apply_translocation_frame : preserves_input_genome Heap.apply_translocation := by
  intro heap genome_ref mutation hg hc
  obtain ⟨md, pos⟩ := mutation
  cases md with
  | translocationData c1 c2 t1 t2 cc =>
      simp only [Heap.apply_translocation, Heap.deepcopy_genome]
      constructor
      · exact getD_set_append _ _ _ _ _ hg
      · intro chrom_ref hmem
        rw [List.append_assoc]
        exact getD_append_lt _ _ _ _ (hc chrom_ref hmem)
  | reversalData ci s e =>
      simp only [Heap.apply_translocation, Heap.deepcopy_genome]
      exact ⟨getD_append_lt _ _ _ _ hg,
        fun chrom_ref hmem => getD_append_lt _ _ _ _ (hc chrom_ref hmem)⟩
  | duplicationData ci s e =>
      simp only [Heap.apply_translocation, Heap.deepcopy_genome]
      exact ⟨getD_append_lt _ _ _ _ hg,
        fun chrom_ref hmem => getD_append_lt _ _ _ _ (hc chrom_ref hmem)⟩
  | deletionData ci s e =>
      simp only [Heap.apply_translocation, Heap.deepcopy_genome]
      exact ⟨getD_append_lt _ _ _ _ hg,
        fun chrom_ref hmem => getD_append_lt _ _ _ _ (hc chrom_ref hmem)⟩

/-- The frame property of the `apply_mutation` dispatcher. -/
lemma apply_mutation_frame : preserves_input_genome Heap.apply_mutation := by
  intro heap genome_ref mutation hg hc
  obtain ⟨md, pos⟩ := mutation
  cases md with
  | reversalData ci s e =>
      exact apply_reversal_frame heap genome_ref
        ⟨MutationData.reversalData ci s e, pos⟩ hg hc
  | duplicationData ci s e =>
      exact apply_duplication_frame heap genome_ref
        ⟨MutationData.duplicationData ci s e, pos⟩ hg hc
  | deletionData ci s e =>
      exact apply_deletion_frame heap genome_ref
        ⟨MutationData.deletionData ci s e, pos⟩ hg hc
  | translocationData c1 c2 t1 t2 cc =>
      exact apply_translocation_frame heap genome_ref
        ⟨MutationData.translocationData c1 c2 t1 t2 cc, pos⟩ hg hc

/-- C6: every applier and the dispatcher leave the caller-visible input
genome unchanged: they operate only on the private deep copy made before
any write, so the input genome object and all chromosome objects it
references read the same after the call. -/
theorem appliers_preserve_input_genome :
    preserves_input_genome Heap.apply_reversal
    ∧ preserves_input_genome Heap.apply_duplication
    ∧ preserves_input_genome Heap.apply_deletion
    ∧ preserves_input_genome Heap.apply_translocation
    ∧ preserves_input_genome Heap.apply_mutation :=
  ⟨apply_reversal_frame, apply_duplication_frame, apply_deletion_frame,
    apply_translocation_frame, apply_mutation_frame⟩

/-- The one-genome, one-chromosome heap of the C6 witness. -/
def wHeap : PyHeap := { chromStore := [[wSeg1]], genomeStore := [[0]] }

/-- Concrete instantiation of the C6 statement: applying `wMut` (a reversal)
through the dispatcher on `wHeap` leaves the input genome object `[0]` and
the chromosome object it references unchanged, while the returned genome
reference is a fresh object. -/
theorem appliers_preserve_input_genome_witness :
    (Heap.apply_mutation wHeap 0 wMut).1.genomeStore.getD 0 [] = [0]
    ∧ (Heap.apply_mutation wHeap 0 wMut).1.chromStore.getD 0 [] = [wSeg1]
    ∧ (Heap.apply_mutation wHeap 0 wMut).2 = 1 := by
  have h := appliers_preserve_input_genome.2.2.2.2 wHeap 0 wMut
    (by decide) (by decide)
  exact ⟨h.1.trans (by decide), (h.2 0 (by decide)).trans (by decide), by decide⟩

/-- The four members of the `Phasing` enum iterated by
`for phasing in Phasing` (manager.py line 402). -/
inductive Phasing where
  | AA
  | AB
  | BA
  | BB
deriving DecidableEq

/-- The iteration order of `for phasing in Phasing`. -/
def Phasing.all : List Phasing := [Phasing.AA, Phasing.AB, Phasing.BA, Phasing.BB]

/-- A value stored in an adjacency copy-number profile under one phasing:
either an integer count or a list of occurrences (`intVal`/`listVal`).
The source only reads `len(value)` of a list value, so the model records
the list's length. -/
inductive CNVal where
  | intVal (n : ℤ)
  | listVal (len : Nat)
deriving DecidableEq

/-- `value = len(value) if isinstance(value, list)` (manager.py lines
406-407). -/
def cnval_to_int : CNVal → ℤ
  | CNVal.intVal n => n
  | CNVal.listVal len => (len : ℤ)

/-- An adjacency copy-number profile: a dictionary keyed by adjacency
identity, each entry a dictionary keyed by phasing.  Adjacency identities
are opaque hashable keys, modelled by naturals; dictionaries are association
lists with distinct keys looked up with `find?`. -/
abbrev ACNP := List (Nat × List (Phasing × CNVal))

/-- `get_unphased_adjacency_cn(adjacency_id, acnp, default)` (manager.py
lines 398-409): `default` when the identity is absent, otherwise the sum of
the entry's values over the four phasings, list values entering through
their length. -/
def get_unphased_adjacency_cn (adjacency_id : Nat) (acnp : ACNP) (default : ℤ) : ℤ :=
  match acnp.find? fun entry => entry.1 == adjacency_id with
  | none => default
  | some entry =>
      Phasing.all.foldl (fun total_cnt phasing =>
        match entry.2.find? fun pv => pv.1 == phasing with
        | none => total_cnt
        | some pv => total_cnt + cnval_to_int pv.2) 0

/-- `set(ref_acnp.keys()).union(inf_acnp.keys())` (manager.py lines 419,
430 and 441). -/
def acnp_id_union (ref_acnp inf_acnp : ACNP) : List Nat :=
  (ref_acnp.map Prod.fst).union (inf_acnp.map Prod.fst)

/-- `get_correctly_inferred_present_unphased_adjacencies` (manager.py lines
417-425): the identities whose unphased totals are strictly positive in
both profiles. -/
def get_correctly_inferred_present_unphased_adjacencies (ref_acnp inf_acnp : ACNP) :
    List Nat :=
  (acnp_id_union ref_acnp inf_acnp).filter fun a_id =>
    decide (0 < get_unphased_adjacency_cn a_id ref_acnp 0)
    && decide (0 < get_unphased_adjacency_cn a_id inf_acnp 0)

/-- `get_correctly_inferred_absent_unphased_adjacencies` (manager.py lines
428-436): the identities whose unphased totals are 0 in both profiles. -/
def get_correctly_inferred_absent_unphased_adjacencies (ref_acnp inf_acnp : ACNP) :
    List Nat :=
  (acnp_id_union ref_acnp inf_acnp).filter fun a_id =>
    decide (get_unphased_adjacency_cn a_id ref_acnp 0 = 0)
    && decide (get_unphased_adjacency_cn a_id inf_acnp 0 = 0)

/-- `get_correctly_inferred_unphased_adjacencies` (manager.py lines
439-447): the identities whose integer unphased totals agree. -/
def get_correctly_inferred_unphased_adjacencies (ref_acnp inf_acnp : ACNP) :
    List Nat :=
  (acnp_id_union ref_acnp inf_acnp).filter fun a_id =>
    decide (get_unphased_adjacency_cn a_id ref_acnp 0
      = get_unphased_adjacency_cn a_id inf_acnp 0)

/-- C8: an adjacency identity with unphased total 0 in the reference
profile and a strictly positive unphased total in the inferred profile is
excluded from all three comparator results (in particular this covers two
profiles identical except for one such novel adjacency). -/
theorem comparators_exclude_novel_adjacency (ref_acnp inf_acnp : ACNP)
    (adjacency_id : Nat)
    (href : get_unphased_adjacency_cn adjacency_id ref_acnp 0 = 0)
    (hinf : 0 < get_unphased_adjacency_cn adjacency_id inf_acnp 0) :
    adjacency_id ∉ get_correctly_inferred_present_unphased_adjacencies ref_acnp inf_acnp
    ∧ adjacency_id ∉ get_correctly_inferred_absent_unphased_adjacencies ref_acnp inf_acnp
    ∧ adjacency_id ∉ get_correctly_inferred_unphased_adjacencies ref_acnp inf_acnp := by
  refine ⟨?_, ?_, ?_⟩
  · intro hmem
    have h := (List.mem_filter.mp hmem).2
    simp only [Bool.and_eq_true, decide_eq_true_eq] at h
    omega
  · intro hmem
    have h := (List.mem_filter.mp hmem).2
    simp only [Bool.and_eq_true, decide_eq_true_eq] at h
    omega
  · intro hmem
    have h := (List.mem_filter.mp hmem).2
    simp only [decide_eq_true_eq] at h
    omega

/-- The inferred profile of the C8 witness: one novel adjacency (identity 7)
with one AA occurrence. -/
def wInfAcnp : ACNP := [(7, [(Phasing.AA, CNVal.listVal 1)])]

/-- Concrete instantiation of the C8 statement: identity 7 is absent from
the empty reference profile (total 0) and present in `wInfAcnp` (total 1),
so all three comparators exclude it. -/
theorem comparators_exclude_novel_adjacency_witness :
    7 ∉ get_correctly_inferred_present_unphased_adjacencies [] wInfAcnp
    ∧ 7 ∉ get_correctly_inferred_absent_unphased_adjacencies [] wInfAcnp
    ∧ 7 ∉ get_correctly_inferred_unphased_adjacencies [] wInfAcnp :=
  comparators_exclude_novel_adjacency [] wInfAcnp 7 (by decide) (by decide)

/-- `get_correctly_inferred_present_absent_unphased_adjacencies`
(manager.py lines 412-414): the body first calls itself with identical
arguments and only then unions the present set onto that result.  The
self-call is modelled with an explicit recursion-depth budget: `none` means
the budget is exhausted without the call ever returning. -/
def get_correctly_inferred_present_absent_unphased_adjacencies :
    Nat → ACNP → ACNP → Option (List Nat)
  | 0, _, _ => none
  | Nat.succ depth, ref_acnp, inf_acnp =>
      match get_correctly_inferred_present_absent_unphased_adjacencies depth
          ref_acnp inf_acnp with
      | none => none
      | some result =>
          some (result.union
            (get_correctly_inferred_present_unphased_adjacencies ref_acnp inf_acnp))

/-- C9: for every recursion-depth budget and every pair of profiles,
`get_correctly_inferred_present_absent_unphased_adjacencies` exhausts the
budget without returning: the self-call with identical arguments never
reaches a base case, so the source function never terminates. -/
theorem get_correctly_inferred_present_absent_never_returns
    (depth : Nat) (ref_acnp inf_acnp : ACNP) :
    get_correctly_inferred_present_absent_unphased_adjacencies depth ref_acnp inf_acnp
      = none := by
  induction depth with
  | zero => rfl
  | succ depth ih =>
      rw [get_correctly_inferred_present_absent_unphased_adjacencies, ih]
